import Mathlib

/-!
Verification of the commit-tracker scripts (git post-commit hooks).

The repository holds three near-duplicate variants of one script:
* variant 1: the first script in src/unnamed/part_000 (sanitized per-branch
  history files plus a conditional commit-history-main.json, with a
  validateEntry step);
* variant 2: src/script/commit-tracker.js (single global
  commit-history.json, validation inlined in saveCommitData);
* variant 3: the second script in src/unnamed/part_000 (global file plus an
  unsanitized per-branch file, no validation at persistence time).

The definitions below are a shallow embedding of those scripts: the string
and regular-expression primitives they use, the processing of the Jest
report, and the persistence pipeline over an explicit file-system state.
External effects (git child processes, the Jest run, the file system) enter
as explicit inputs: the raw strings the processes print and the prior state
of each file.
-/

/-! ## String and regex primitives used by the scripts -/

/-- Character class of the digits, as matched by the regex atom for digits. -/
def isDigitChar (c : Char) : Bool := '0' ≤ c && c ≤ '9'

/-- JavaScript whitespace class (the common members; the script outputs only
contain blanks and newlines). -/
def isSpaceChar (c : Char) : Bool :=
  c = ' ' || c = '\t' || c = '\n' || c = '\r' || c = '\x0b' || c = '\x0c'

/-- Value of a digit run, as produced by parseInt(m, 10) on the captured
digits. -/
def digitsToNat (ds : List Char) : Nat :=
  ds.foldl (fun acc c => acc * 10 + (c.toNat - '0'.toNat)) 0

/-- Try to match, exactly at the head of l, the pattern "one or more
digits, one or more whitespace characters, then the literal keyword kw";
return the numeric value of the digit run on success.  This is the anchored
step of the unanchored regexes (digits, whitespace, "insertion") and
(digits, whitespace, "deletion") used on git diff and show stat output. -/
def matchNumAt (kw : List Char) (l : List Char) : Option Nat :=
  let ds := l.takeWhile isDigitChar
  let rest := l.dropWhile isDigitChar
  if ds.isEmpty then none
  else
    let sp := rest.takeWhile isSpaceChar
    let rest2 := rest.dropWhile isSpaceChar
    if sp.isEmpty then none
    else if decide (kw <+: rest2) then some (digitsToNat ds) else none

/-- Leftmost match of the digits-whitespace-keyword pattern: the JavaScript
String.match semantics for the diff-stat regexes (first start position at
which the pattern matches; the greedy digit and whitespace runs cannot
backtrack because the follow sets are disjoint). -/
def matchNumFrom (kw : List Char) : List Char → Option Nat
  | [] => none
  | c :: rest =>
    match matchNumAt kw (c :: rest) with
    | some n => some n
    | none => matchNumFrom kw rest

/-- additions parsed from a stat output: the captured digits before the word
"insertion", with 0 when the regex does not match (addM case split in
getCommitInfo). -/
def parseInsertions (s : String) : Nat :=
  (matchNumFrom "insertion".data s.data).getD 0

/-- deletions parsed from a stat output: the captured digits before the word
"deletion", with 0 when the regex does not match (delM case split in
getCommitInfo). -/
def parseDeletions (s : String) : Nat :=
  (matchNumFrom "deletion".data s.data).getD 0

/-- JavaScript String.endsWith, and also the anchored-at-end regex test used
for the forbidden /commit/HEAD ending. -/
def jsEndsWith (s pat : String) : Bool := decide (pat.data <:+ s.data)

/-- Membership in the case-insensitive character class of the sha gate
regex: a digit or a hex letter of either case (the regex has the ignore-case
flag in all three variants). -/
def isHexCI (c : Char) : Bool :=
  (('0' ≤ c) && (c ≤ '9')) || (('a' ≤ c) && (c ≤ 'f')) || (('A' ≤ c) && (c ≤ 'F'))

/-- The sha gate, anchored hex-run of length 7 to 40 with the ignore-case
flag, applied to the output of the rev-parse HEAD call in every variant. -/
def shaGate (s : String) : Bool :=
  decide (7 ≤ s.data.length) && decide (s.data.length ≤ 40) && s.data.all isHexCI

/-- Modelled from the spec: the claim asserts that a persisted sha matches
the anchored lowercase-only pattern, a hex run of 7 to 40 characters drawn
from the digits and the lowercase letters a to f.  This is the claim-side
pattern to compare with the shaGate of the source, whose regex also accepts
uppercase because of its ignore-case flag. -/
def specShaPattern (s : String) : Bool :=
  decide (7 ≤ s.data.length) && decide (s.data.length ≤ 40)
    && s.data.all (fun c => isDigitChar c || (('a' ≤ c) && (c ≤ 'f')))

/-- Characters kept unchanged by sanitizeBranchName: letters, digits, dot,
underscore and dash; every other character is replaced. -/
def isAllowedBranchChar (c : Char) : Bool :=
  (('a' ≤ c) && (c ≤ 'z')) || (('A' ≤ c) && (c ≤ 'Z')) || (('0' ≤ c) && (c ≤ '9'))
    || c = '.' || c = '_' || c = '-'

/-- sanitizeBranchName from the first variant: an empty (falsy) name becomes
"unknown", then every character outside the allowed class is replaced with
an underscore. -/
def sanitizeBranchName (name : String) : String :=
  let base := if name = "" then "unknown" else name
  String.mk (base.data.map (fun c => if isAllowedBranchChar c then c else '_'))

/-- commitUrl construction in getCommitInfo: empty when there is no remote
URL, otherwise the remote URL, the literal "/commit/" and the sha. -/
def commitUrlOf (repoUrl sha : String) : String :=
  if repoUrl = "" then "" else repoUrl ++ "/commit/" ++ sha

/-- dateYmd in getCommitInfo: the commit date split at the first letter T
(the date part of the ISO timestamp), empty for an empty date. -/
def dateYmd (s : String) : String :=
  String.mk (s.data.takeWhile (fun c => c ≠ 'T'))

/-- JavaScript Math.round on an exact rational: the floor of the value plus
one half (round half toward positive infinity), written with the computable
rational floor. -/
def jsRound (q : ℚ) : Int := Rat.floor (q + 1/2)

theorem jsRound_eq_floor (q : ℚ) : jsRound q = ⌊q + 1/2⌋ := by
  unfold jsRound
  rw [Rat.floor_def' (q + 1/2), Rat.floor_def]

/-- Modelled from the spec: a value rounded to 2 decimal places, the
claim-side statement of the coverage rounding. -/
def round2 (x : ℚ) : ℚ := (jsRound (x * 100) : ℚ) / 100

/-! ## Jest report processing (the test block of getCommitInfo) -/

/-- One file entry of the coverageMap: its s object maps statement ids to
hit counts.  The s field is an Option because the report is arbitrary parsed
JSON: a file value without a usable s object makes the coverage loop throw,
which the surrounding catch turns into degraded data. -/
structure CoverageFile where
  s : Option (List Int)
deriving DecidableEq

/-- The parsed Jest report: numTotalTests, numFailedTests (each read with
a fallback to 0, so modelled as plain naturals) and the optional
coverageMap. -/
structure JestResults where
  numTotalTests : Nat
  numFailedTests : Nat
  coverageMap : Option (List CoverageFile)
deriving DecidableEq

/-- The four test-related fields of the record produced by getCommitInfo. -/
structure TestOutcome where
  test_count : Nat
  failed_tests : Nat
  coverage : ℚ
  conclusion : String
deriving DecidableEq

/-- The conclusion assignment of getCommitInfo: failure when there are
tests and failures, success when there are tests and no failures, neutral
when there are no tests. -/
def conclusionOf (tc ft : Nat) : String :=
  if 0 < tc then (if 0 < ft then "failure" else "success") else "neutral"

/-- The coverage loop of getCommitInfo: accumulate, file by file, the
number of statement counters with positive hit count and the total number
of statement counters.  A file whose s object is unusable throws, modelled
as none. -/
def coverageTotals : List CoverageFile → Option (Nat × Nat)
  | [] => some (0, 0)
  | f :: rest =>
    match f.s with
    | none => none
    | some hits =>
      match coverageTotals rest with
      | none => none
      | some (c, t) =>
        some (c + (hits.filter (fun v => 0 < v)).length, t + hits.length)

/-- The coverage assignment of getCommitInfo: round the covered ratio times
10000 and divide by 100 (two decimal places), and leave the 0 default when
there is no counter at all. -/
def computedCoverage (covered total : Nat) : ℚ :=
  if 0 < total then (jsRound ((covered : ℚ) / (total : ℚ) * 10000) : ℚ) / 100 else 0

/-- The whole test block of getCommitInfo, as a function of the parsed
report (none models every path on which no report object is obtained: no
package manifest, no output file, or an unparseable output file; each of
those leaves all four defaults in place).  When the coverage loop throws,
the catch keeps the values already assigned: the test counts are those read
from the report, coverage keeps its 0 default, and the conclusion keeps its
"neutral" default because its assignment comes after the coverage loop. -/
def processJestResults : Option JestResults → TestOutcome
  | none => ⟨0, 0, 0, "neutral"⟩
  | some r =>
    match r.coverageMap with
    | none => ⟨r.numTotalTests, r.numFailedTests, 0,
        conclusionOf r.numTotalTests r.numFailedTests⟩
    | some files =>
      match coverageTotals files with
      | none => ⟨r.numTotalTests, r.numFailedTests, 0, "neutral"⟩
      | some (covered, total) =>
        ⟨r.numTotalTests, r.numFailedTests, computedCoverage covered total,
          conclusionOf r.numTotalTests r.numFailedTests⟩

/-- Covered and total statement counters extracted from an optional report,
when the report exists, has a coverageMap and the loop does not throw. -/
def covTotals : Option JestResults → Option (Nat × Nat)
  | none => none
  | some r =>
    match r.coverageMap with
    | none => none
    | some files => coverageTotals files

/-- True when processing the report cannot throw inside the coverage loop:
either there is no report or no coverageMap, or every file has a usable s
object. -/
def reportProcessingOk (report : Option JestResults) : Bool :=
  match report with
  | none => true
  | some r =>
    match r.coverageMap with
    | none => true
    | some files => (coverageTotals files).isSome

/-! ## Diff-stat computation (the diff block of getCommitInfo) -/

/-- Stats parsed from a git stat output in the first and third variants:
both the diff branch and the show fallback capture insertions and
deletions with the two regexes. -/
def parsedStats (out : String) : Nat × Nat :=
  (parseInsertions out, parseDeletions out)

/-- The show fallback of commit-tracker.js: insertions are parsed from the
git show stat output and deletions are set to the literal 0. -/
def showFallbackStatsB (out : String) : Nat × Nat :=
  (parseInsertions out, 0)

/-! ## The CommitRecord and its assembly -/

/-- The commit sub-object of a record: ISO committer date, message and
commit URL. -/
structure Commit where
  date : String
  message : String
  url : String
deriving DecidableEq

/-- The stats sub-object of a record: total, additions, deletions and the
date part of the commit date. -/
structure Stats where
  total : Nat
  additions : Nat
  deletions : Nat
  date : String
deriving DecidableEq

/-- A CommitRecord as assembled at the end of getCommitInfo and persisted
into the history files. -/
structure Entry where
  sha : String
  author : String
  branch : String
  commit : Commit
  stats : Stats
  coverage : ℚ
  test_count : Nat
  failed_tests : Nat
  conclusion : String
deriving DecidableEq

/-- The record assembly at the end of getCommitInfo, from the resolved
metadata, the remote URL, the diff stats and the test outcome. -/
def mkEntry (sha author branch commitDateIso commitMessage repoUrl : String)
    (additions deletions : Nat) (outcome : TestOutcome) : Entry :=
  { sha := sha
    author := author
    branch := branch
    commit :=
      { date := commitDateIso
        message := commitMessage
        url := commitUrlOf repoUrl sha }
    stats :=
      { total := additions + deletions
        additions := additions
        deletions := deletions
        date := dateYmd commitDateIso }
    coverage := outcome.coverage
    test_count := outcome.test_count
    failed_tests := outcome.failed_tests
    conclusion := outcome.conclusion }

/-! ## Persistence: history files on an explicit file system -/

/-- What parsing an existing history file can yield: a JSON array of
records, or some other JSON value. -/
inductive JsValue where
  | arr (entries : List Entry)
  | nonArray
deriving DecidableEq

/-- The state of one path on disk: missing, present and parseable, or
present with content on which JSON parsing throws. -/
inductive FileState where
  | absent
  | parses (v : JsValue)
  | corrupt
deriving DecidableEq

/-- One writeFileSync call: the path and the array written to it. -/
structure Write where
  path : String
  content : List Entry
deriving DecidableEq

/-- The file system together with the ordered log of writes performed. -/
structure TrackState where
  fs : String → FileState
  log : List Write

/-- writeFileSync of a JSON array: the path now parses to that array, and
the write is appended to the log. -/
def writeArr (st : TrackState) (p : String) (l : List Entry) : TrackState :=
  { fs := fun q => if q = p then FileState.parses (JsValue.arr l) else st.fs q
    log := st.log ++ [⟨p, l⟩] }

/-- loadHistory of the first variant, and the identical inline read logic
of saveCommitData in the other two: a missing file, a file whose JSON fails
to parse, and a file whose JSON is not an array all yield the empty
history. -/
def loadHistory : FileState → List Entry
  | FileState.parses (JsValue.arr es) => es
  | _ => []

/-- The sort performed before every write: ascending by the value the
JavaScript Date constructor assigns to commit.date.  The Date parse is a
host primitive, taken here as an explicit parameter pd giving each date
string its millisecond timestamp; the sort itself is the stable sort the
JavaScript specification requires of Array.sort. -/
def saveHistory (pd : String → Int) (commits : List Entry) : List Entry :=
  commits.insertionSort (fun a b => pd a.commit.date ≤ pd b.commit.date)

/-- appendEntry of the first variant, and the identical load-push-sort-write
sequence inlined in saveCommitData of the other two. -/
def appendEntryFS (pd : String → Int) (st : TrackState) (p : String) (e : Entry) :
    TrackState :=
  writeArr st p (saveHistory pd (loadHistory (st.fs p) ++ [e]))

/-- The create-if-missing step: write an empty array when the path does not
exist. -/
def createIfAbsent (st : TrackState) (p : String) : TrackState :=
  if st.fs p = FileState.absent then writeArr st p [] else st

/-- The reasons validateEntry (variant 1) or saveCommitData (variant 2) can
throw. -/
inductive ValidationError where
  | shaIsHead
  | urlEndsCommitHead
  | urlNotEndsSha
  | missingBranch
deriving DecidableEq

/-- The reasons the top-level try block can reach its catch, each ending in
a nonzero process exit. -/
inductive TrackerError where
  | invalidSha
  | buildFailed
  | invalid (v : ValidationError)
deriving DecidableEq

/-- True exactly on the error outcomes, i.e. the runs that exit nonzero. -/
def isErr {ε α : Type} : Except ε α → Bool
  | Except.error _ => true
  | Except.ok _ => false

/-- validateEntry of the first variant: reject a HEAD sha, a URL ending in
/commit/HEAD, a nonempty URL not ending in the sha, and a missing branch,
in that order. -/
def validateEntry (e : Entry) : Except ValidationError Unit :=
  if e.sha = "HEAD" then Except.error ValidationError.shaIsHead
  else if e.commit.url ≠ "" ∧ jsEndsWith e.commit.url "/commit/HEAD" = true then
    Except.error ValidationError.urlEndsCommitHead
  else if e.commit.url ≠ "" ∧ jsEndsWith e.commit.url e.sha = false then
    Except.error ValidationError.urlNotEndsSha
  else if e.branch = "" then Except.error ValidationError.missingBranch
  else Except.ok ()

/-- The global history file of variants 2 and 3. -/
def DATA_FILE : String := "script/commit-history.json"

/-- The conditional main-branch file of variant 1. -/
def MAIN_FILE : String := "script/commit-history-main.json"

/-- The per-branch file of variant 1, with the sanitized branch name. -/
def branchPathV1 (e : Entry) : String :=
  "script/commit-history-" ++ sanitizeBranchName e.branch ++ ".json"

/-- The per-branch file of variant 3, built from the raw branch name. -/
def branchPathV3 (e : Entry) : String :=
  "script/commit-history-" ++ e.branch ++ ".json"

/-- The main flow of variant 1: gate the resolved sha, require a built
entry, validate it, then create and append the per-branch file and, for the
main branch, the main file.  The entry argument stands for the getCommitInfo
result (none when reading the metadata failed).  On every thrown error the
state is returned unchanged: nothing is written before validation
succeeds. -/
def runTrackerV1 (pd : String → Int) (shaRaw : String) (info : Option Entry)
    (st : TrackState) : TrackState × Except TrackerError Unit :=
  if shaGate shaRaw = false then (st, Except.error TrackerError.invalidSha)
  else
    match info with
    | none => (st, Except.error TrackerError.buildFailed)
    | some e =>
      match validateEntry e with
      | Except.error v => (st, Except.error (TrackerError.invalid v))
      | Except.ok _ =>
        let p := branchPathV1 e
        let st1 := createIfAbsent st p
        let st2 := appendEntryFS pd st1 p e
        if e.branch = "main" then
          let st3 := createIfAbsent st2 MAIN_FILE
          (appendEntryFS pd st3 MAIN_FILE e, Except.ok ())
        else (st2, Except.ok ())

/-- saveCommitData of commit-tracker.js (variant 2): the three HEAD and URL
gates, then append to the single global file.  There is no branch check in
this variant. -/
def saveCommitDataV2 (pd : String → Int) (st : TrackState) (e : Entry) :
    Except ValidationError TrackState :=
  if e.sha = "HEAD" then Except.error ValidationError.shaIsHead
  else if e.commit.url ≠ "" ∧ jsEndsWith e.commit.url "/commit/HEAD" = true then
    Except.error ValidationError.urlEndsCommitHead
  else if e.commit.url ≠ "" ∧ jsEndsWith e.commit.url e.sha = false then
    Except.error ValidationError.urlNotEndsSha
  else Except.ok (appendEntryFS pd st DATA_FILE e)

/-- The main flow of commit-tracker.js (variant 2): create the global file
if missing, gate the sha, require a built entry, then saveCommitData. -/
def runTrackerV2 (pd : String → Int) (shaRaw : String) (info : Option Entry)
    (st : TrackState) : TrackState × Except TrackerError Unit :=
  let st1 := createIfAbsent st DATA_FILE
  if shaGate shaRaw = false then (st1, Except.error TrackerError.invalidSha)
  else
    match info with
    | none => (st1, Except.error TrackerError.buildFailed)
    | some e =>
      match saveCommitDataV2 pd st1 e with
      | Except.error v => (st1, Except.error (TrackerError.invalid v))
      | Except.ok st2 => (st2, Except.ok ())

/-- saveCommitData of variant 3: append to the global file, then, when the
branch is nonempty and not the literal HEAD, also to the per-branch file
built from the raw branch name.  No validation is performed here. -/
def saveCommitDataV3 (pd : String → Int) (st : TrackState) (e : Entry) : TrackState :=
  let st1 := appendEntryFS pd st DATA_FILE e
  if e.branch ≠ "" ∧ e.branch ≠ "HEAD" then appendEntryFS pd st1 (branchPathV3 e) e
  else st1

/-! ## Shared concrete inputs for closed evaluations -/

/-- A date-parse function for closed evaluations. -/
def pd0 : String → Int := fun _ => 0

/-- An initially empty file system with an empty write log. -/
def st0 : TrackState := ⟨fun _ => FileState.absent, []⟩

/-- The test outcome of a run with no report at all. -/
def outcome0 : TestOutcome := processJestResults none

/-! ## Helper lemmas -/

theorem suffix_of_suffix_of_length_le {α : Type} (l1 l2 l : List α)
    (h1 : l1 <:+ l) (h2 : l2 <:+ l) (hle : l1.length ≤ l2.length) : l1 <:+ l2 := by
  obtain ⟨t1, ht1⟩ := h1
  obtain ⟨t2, ht2⟩ := h2
  have hlen : t1.length + l1.length = t2.length + l2.length := by
    have := congrArg List.length (ht1.trans ht2.symm)
    simpa [List.length_append] using this
  have ht2le : t2.length ≤ t1.length := by omega
  have heq : t1 ++ l1 = t2 ++ l2 := ht1.trans ht2.symm
  have htk : t1.take t2.length = t2 := by
    have h3 := congrArg (List.take t2.length) heq
    rwa [List.take_append_of_le_length ht2le, List.take_left] at h3
  refine ⟨t1.drop t2.length, ?_⟩
  have hsplit : t2 ++ List.drop t2.length t1 = t1 := by
    conv_rhs => rw [← List.take_append_drop t2.length t1]
    rw [htk]
  have hfull : t2 ++ (List.drop t2.length t1 ++ l1) = t2 ++ l2 := by
    rw [← List.append_assoc, hsplit, heq]
  exact List.append_cancel_left hfull

theorem shaGate_spec (s : String) (h : shaGate s = true) :
    7 ≤ s.data.length ∧ s.data.length ≤ 40 ∧ s.data.all isHexCI = true := by
  unfold shaGate at h
  simp only [Bool.and_eq_true, decide_eq_true_eq] at h
  exact ⟨h.1.1, h.1.2, h.2⟩

theorem shaGate_ne_HEAD (s : String) (h : shaGate s = true) : s ≠ "HEAD" := by
  intro heq
  subst heq
  exact absurd (shaGate_spec _ h).1 (by decide)

theorem commitUrl_not_endsWith_commitHEAD (repoUrl sha : String)
    (h : shaGate sha = true) :
    jsEndsWith (commitUrlOf repoUrl sha) "/commit/HEAD" = false := by
  unfold commitUrlOf
  by_cases hr : repoUrl = ""
  · rw [if_pos hr]
    decide
  · rw [if_neg hr]
    unfold jsEndsWith
    rw [decide_eq_false_iff_not]
    intro hsuf
    have hHead : "HEAD".data <:+ (repoUrl ++ "/commit/" ++ sha).data :=
      List.IsSuffix.trans ⟨"/commit/".data, rfl⟩ hsuf
    have hsha : sha.data <:+ (repoUrl ++ "/commit/" ++ sha).data := by
      refine ⟨repoUrl.data ++ "/commit/".data, ?_⟩
      simp [String.data_append, List.append_assoc]
    have hlen4 : ("HEAD".data).length ≤ sha.data.length := by
      have h7 := (shaGate_spec sha h).1
      have : ("HEAD".data).length = 4 := by decide
      omega
    have hsub : "HEAD".data <:+ sha.data :=
      suffix_of_suffix_of_length_le _ _ _ hHead hsha hlen4
    have hmem : 'H' ∈ sha.data := hsub.subset (by decide)
    have hhex : isHexCI 'H' = true :=
      List.all_eq_true.mp (shaGate_spec sha h).2.2 'H' hmem
    exact absurd hhex (by decide)

theorem commitUrl_endsWith_sha (repoUrl sha : String)
    (h : commitUrlOf repoUrl sha ≠ "") :
    jsEndsWith (commitUrlOf repoUrl sha) sha = true := by
  unfold commitUrlOf at *
  by_cases hr : repoUrl = ""
  · rw [if_pos hr] at h
    exact absurd rfl h
  · rw [if_neg hr]
    unfold jsEndsWith
    simp only [decide_eq_true_eq]
    refine ⟨repoUrl.data ++ "/commit/".data, ?_⟩
    simp [String.data_append, List.append_assoc]

theorem validateEntry_ok_iff (e : Entry) :
    validateEntry e = Except.ok () ↔
      e.sha ≠ "HEAD"
        ∧ ¬(e.commit.url ≠ "" ∧ jsEndsWith e.commit.url "/commit/HEAD" = true)
        ∧ ¬(e.commit.url ≠ "" ∧ jsEndsWith e.commit.url e.sha = false)
        ∧ e.branch ≠ "" := by
  unfold validateEntry
  split_ifs with h1 h2 h3 h4 <;> simp_all

theorem saveHistory_sorted (pd : String → Int) (commits : List Entry) :
    List.Pairwise (fun a b => pd a.commit.date ≤ pd b.commit.date)
      (saveHistory pd commits) := by
  haveI : IsTotal Entry (fun a b => pd a.commit.date ≤ pd b.commit.date) :=
    ⟨fun a b => le_total _ _⟩
  haveI : IsTrans Entry (fun a b => pd a.commit.date ≤ pd b.commit.date) :=
    ⟨fun _ _ _ hab hbc => le_trans hab hbc⟩
  exact List.sorted_insertionSort _ _

theorem coverageTotals_le (files : List CoverageFile) (c t : Nat)
    (h : coverageTotals files = some (c, t)) : c ≤ t := by
  induction files generalizing c t with
  | nil =>
    simp only [coverageTotals, Option.some.injEq, Prod.mk.injEq] at h
    omega
  | cons f rest ih =>
    simp only [coverageTotals] at h
    cases hs : f.s with
    | none =>
      rw [hs] at h
      exact absurd h (by simp)
    | some hits =>
      rw [hs] at h
      cases hr : coverageTotals rest with
      | none =>
        rw [hr] at h
        exact absurd h (by simp)
      | some p =>
        obtain ⟨c0, t0⟩ := p
        rw [hr] at h
        simp only [Option.some.injEq, Prod.mk.injEq] at h
        have hrec : c0 ≤ t0 := ih c0 t0 hr
        have hfl : (hits.filter (fun v => 0 < v)).length ≤ hits.length :=
          List.length_filter_le _ _
        omega

/-! ## Claim theorems -/

/-- Claim C5: after every append to a history file, the written content is a
JSON array whose records are sorted non-decreasing by their parsed
commit.date (pd is the timestamp the Date constructor assigns to each date
string). -/
theorem history_sorted_after_append (pd : String → Int) (st : TrackState)
    (p : String) (e : Entry) :
    ∃ l, (appendEntryFS pd st p e).fs p = FileState.parses (JsValue.arr l)
      ∧ List.Pairwise (fun a b => pd a.commit.date ≤ pd b.commit.date) l := by
  refine ⟨saveHistory pd (loadHistory (st.fs p) ++ [e]), ?_, saveHistory_sorted pd _⟩
  unfold appendEntryFS writeArr
  simp

/-- Claim C7: the persisted coverage equals the covered statement counters
over the total counters times 100, rounded to 2 decimal places, and is 0
when there is no report, no coverageMap, or no counter at all (the branch
on which the coverage loop throws also leaves 0). -/
theorem coverage_matches_formula (report : Option JestResults) :
    (processJestResults report).coverage =
      match covTotals report with
      | some (c, t) => if 0 < t then round2 ((c : ℚ) / (t : ℚ) * 100) else 0
      | none => 0 := by
  cases report with
  | none => rfl
  | some r =>
    cases hm : r.coverageMap with
    | none => simp [processJestResults, covTotals, hm]
    | some files =>
      cases hc : coverageTotals files with
      | none => simp [processJestResults, covTotals, hm, hc]
      | some p =>
        obtain ⟨c, t⟩ := p
        simp only [processJestResults, covTotals, hm, hc]
        unfold computedCoverage round2
        by_cases ht : 0 < t
        · rw [if_pos ht, if_pos ht]
          have harg : (c : ℚ) / (t : ℚ) * 100 * 100 = (c : ℚ) / (t : ℚ) * 10000 := by
            ring
          rw [harg]
        · rw [if_neg ht, if_neg ht]

/-- Claim C8: an existing history file whose content fails to parse, or
parses to a value that is not an array, loads as the empty history, and the
write that follows the append contains exactly the one new record. -/
theorem load_failure_yields_empty (fsSt : FileState)
    (hbad : fsSt = FileState.corrupt ∨ fsSt = FileState.parses JsValue.nonArray)
    (pd : String → Int) (st : TrackState) (p : String) (e : Entry)
    (hp : st.fs p = fsSt) :
    loadHistory fsSt = []
      ∧ (appendEntryFS pd st p e).fs p = FileState.parses (JsValue.arr [e]) := by
  rcases hbad with h | h <;> subst h <;>
    refine ⟨rfl, ?_⟩ <;>
    · unfold appendEntryFS writeArr
      simp [hp, loadHistory, saveHistory, List.insertionSort, List.orderedInsert]

/-- Claim C9: a commit URL built by getCommitInfo is empty or the remote
URL followed by /commit/ and the sha; when the sha passed the hex gate such
a URL never ends in /commit/HEAD, always ends in the sha when nonempty, and
the URL rejection branches of validateEntry cannot fire on a record built
from it. -/
theorem commit_url_wellformed (repoUrl sha : String) (h : shaGate sha = true) :
    (commitUrlOf repoUrl sha = ""
        ∨ commitUrlOf repoUrl sha = repoUrl ++ "/commit/" ++ sha)
      ∧ jsEndsWith (commitUrlOf repoUrl sha) "/commit/HEAD" = false
      ∧ (commitUrlOf repoUrl sha ≠ "" →
          jsEndsWith (commitUrlOf repoUrl sha) sha = true)
      ∧ (∀ e : Entry, e.sha = sha → e.commit.url = commitUrlOf repoUrl sha →
          e.branch ≠ "" → validateEntry e = Except.ok ()) := by
  refine ⟨?_, commitUrl_not_endsWith_commitHEAD repoUrl sha h,
    fun hne => commitUrl_endsWith_sha repoUrl sha hne, ?_⟩
  · unfold commitUrlOf
    by_cases hr : repoUrl = ""
    · left
      rw [if_pos hr]
    · right
      rw [if_neg hr]
  · intro e hsha hurl hbr
    rw [validateEntry_ok_iff]
    refine ⟨?_, ?_, ?_, hbr⟩
    · rw [hsha]
      exact shaGate_ne_HEAD sha h
    · rintro ⟨hne, hend⟩
      rw [hurl, commitUrl_not_endsWith_commitHEAD repoUrl sha h] at hend
      simp at hend
    · rintro ⟨hne, hend⟩
      rw [hurl] at hne hend
      rw [hsha, commitUrl_endsWith_sha repoUrl sha hne] at hend
      simp at hend

/-- Witness for claim C9: the commit URL facts at a concrete remote URL and
a concrete gate-passing sha. -/
theorem commit_url_wellformed_witness :
    (commitUrlOf "https://example.com/o/r" "abc1234" = ""
        ∨ commitUrlOf "https://example.com/o/r" "abc1234"
            = "https://example.com/o/r" ++ "/commit/" ++ "abc1234")
      ∧ jsEndsWith (commitUrlOf "https://example.com/o/r" "abc1234")
          "/commit/HEAD" = false
      ∧ (commitUrlOf "https://example.com/o/r" "abc1234" ≠ "" →
          jsEndsWith (commitUrlOf "https://example.com/o/r" "abc1234")
            "abc1234" = true)
      ∧ (∀ e : Entry, e.sha = "abc1234" →
          e.commit.url = commitUrlOf "https://example.com/o/r" "abc1234" →
          e.branch ≠ "" → validateEntry e = Except.ok ()) :=
  commit_url_wellformed "https://example.com/o/r" "abc1234" (by decide)

/-- Claim C10: the coverage field of every produced record lies between 0
and 100. -/
theorem coverage_within_bounds (report : Option JestResults) :
    0 ≤ (processJestResults report).coverage
      ∧ (processJestResults report).coverage ≤ 100 := by
  cases report with
  | none =>
    constructor <;> norm_num [processJestResults]
  | some r =>
    cases hm : r.coverageMap with
    | none =>
      constructor <;> norm_num [processJestResults, hm]
    | some files =>
      cases hc : coverageTotals files with
      | none =>
        constructor <;> norm_num [processJestResults, hm, hc]
      | some p =>
        obtain ⟨c, t⟩ := p
        simp only [processJestResults, hm, hc]
        have hct : c ≤ t := coverageTotals_le files c t hc
        unfold computedCoverage
        by_cases ht : 0 < t
        · rw [if_pos ht]
          have htq : (0 : ℚ) < t := by exact_mod_cast ht
          have hq0 : (0 : ℚ) ≤ (c : ℚ) / t * 10000 := by positivity
          have hq1 : (c : ℚ) / t * 10000 ≤ 10000 := by
            have hdiv : (c : ℚ) / t ≤ 1 := (div_le_one htq).mpr (by exact_mod_cast hct)
            nlinarith
          have hr0 : 0 ≤ jsRound ((c : ℚ) / t * 10000) := by
            rw [jsRound_eq_floor]
            exact Int.floor_nonneg.mpr (by linarith)
          have hr1 : jsRound ((c : ℚ) / t * 10000) ≤ 10000 := by
            rw [jsRound_eq_floor]
            have hmono : ⌊((c : ℚ) / t * 10000 + 1/2)⌋ ≤ ⌊(10000 + 1/2 : ℚ)⌋ :=
              Int.floor_le_floor (by linarith)
            have hval : ⌊(10000 + 1/2 : ℚ)⌋ = 10000 := by
              rw [Int.floor_eq_iff]
              norm_num
            omega
          constructor
          · apply div_nonneg _ (by norm_num)
            exact_mod_cast hr0
          · rw [div_le_iff₀ (by norm_num : (0 : ℚ) < 100)]
            calc ((jsRound ((c : ℚ) / t * 10000) : ℚ)) ≤ 10000 := by exact_mod_cast hr1
              _ = 100 * 100 := by norm_num
        · rw [if_neg ht]
          norm_num

theorem conclusionOf_spec (tc ft : Nat) :
    (conclusionOf tc ft = "neutral" ↔ tc = 0)
      ∧ (tc ≠ 0 → (conclusionOf tc ft = "failure" ↔ 0 < ft))
      ∧ (tc ≠ 0 → ft = 0 → conclusionOf tc ft = "success") := by
  unfold conclusionOf
  by_cases h1 : 0 < tc
  · rw [if_pos h1]
    by_cases h2 : 0 < ft
    · rw [if_pos h2]
      exact ⟨⟨fun hq => absurd hq (by decide), fun h0 => absurd h0 (by omega)⟩,
        fun _ => ⟨fun _ => h2, fun _ => rfl⟩,
        fun _ hf => absurd h2 (by omega)⟩
    · rw [if_neg h2]
      exact ⟨⟨fun hq => absurd hq (by decide), fun h0 => absurd h0 (by omega)⟩,
        fun _ => ⟨fun hq => absurd hq (by decide), fun hf => absurd hf h2⟩,
        fun _ _ => rfl⟩
  · rw [if_neg h1]
    exact ⟨⟨fun _ => by omega, fun _ => rfl⟩,
      fun htc => absurd (by omega : tc = 0) htc,
      fun htc _ => absurd (by omega : tc = 0) htc⟩

/-- Claim C1 (amended): on every execution where processing the Jest report
does not throw, conclusion is neutral iff test_count is 0, else failure iff
failed_tests is positive, else success.  When the coverage loop throws after
the test counts were read, the conclusion instead keeps its neutral default
regardless of test_count. -/
theorem conclusion_consistent_of_processing_ok (report : Option JestResults)
    (h : reportProcessingOk report = true) :
    ((processJestResults report).conclusion = "neutral"
        ↔ (processJestResults report).test_count = 0)
      ∧ ((processJestResults report).test_count ≠ 0 →
          ((processJestResults report).conclusion = "failure"
            ↔ 0 < (processJestResults report).failed_tests))
      ∧ ((processJestResults report).test_count ≠ 0 →
          (processJestResults report).failed_tests = 0 →
          (processJestResults report).conclusion = "success") := by
  cases report with
  | none =>
    exact ⟨by simp [processJestResults], by simp [processJestResults],
      by simp [processJestResults]⟩
  | some r =>
    cases hm : r.coverageMap with
    | none =>
      simp only [processJestResults, hm]
      exact conclusionOf_spec r.numTotalTests r.numFailedTests
    | some files =>
      cases hc : coverageTotals files with
      | none =>
        exfalso
        simp [reportProcessingOk, hm, hc] at h
      | some p =>
        obtain ⟨c, t⟩ := p
        simp only [processJestResults, hm, hc]
        exact conclusionOf_spec r.numTotalTests r.numFailedTests

/-- Witness for claim C1: a concrete report with tests and one failure,
whose processing completes, yields the failure conclusion consistently. -/
theorem conclusion_consistent_witness :
    reportProcessingOk (some ⟨3, 1, none⟩) = true
      ∧ (((processJestResults (some ⟨3, 1, none⟩)).conclusion = "neutral"
            ↔ (processJestResults (some ⟨3, 1, none⟩)).test_count = 0)
          ∧ ((processJestResults (some ⟨3, 1, none⟩)).test_count ≠ 0 →
              ((processJestResults (some ⟨3, 1, none⟩)).conclusion = "failure"
                ↔ 0 < (processJestResults (some ⟨3, 1, none⟩)).failed_tests))
          ∧ ((processJestResults (some ⟨3, 1, none⟩)).test_count ≠ 0 →
              (processJestResults (some ⟨3, 1, none⟩)).failed_tests = 0 →
              (processJestResults (some ⟨3, 1, none⟩)).conclusion = "success")) :=
  ⟨rfl, conclusion_consistent_of_processing_ok (some ⟨3, 1, none⟩) rfl⟩

/-- A report whose coverageMap holds a file without a usable s object: the
coverage loop throws after the test counts are read. -/
def badReport : JestResults := ⟨5, 0, some [⟨none⟩]⟩

/-- The outcome of processing badReport: five tests but a neutral
conclusion. -/
def badOutcome : TestOutcome := processJestResults (some badReport)

/-- A full record assembled from badOutcome, valid for persistence. -/
def cexEntryC1 : Entry :=
  mkEntry "abc1234" "Dev" "dev" "2024-01-05T10:00:00+00:00" "add feature" ""
    3 1 badOutcome

/-- Counterexample to claim C1 as stated: when the Jest report read raises
partway through (here: a coverageMap file whose s object is unusable), the
record keeps conclusion neutral although test_count is 5, and variant 1
persists that record without complaint. -/
theorem conclusion_neutral_with_tests_counterexample :
    cexEntryC1.test_count = 5 ∧ cexEntryC1.conclusion = "neutral"
      ∧ (runTrackerV1 pd0 "abc1234" (some cexEntryC1) st0).2 = Except.ok ()
      ∧ (runTrackerV1 pd0 "abc1234" (some cexEntryC1) st0).1.fs
          "script/commit-history-dev.json"
          = FileState.parses (JsValue.arr [cexEntryC1]) :=
  ⟨rfl, rfl, rfl, rfl⟩

theorem endsWith_commitHEAD_ne_empty (s : String)
    (h : jsEndsWith s "/commit/HEAD" = true) : s ≠ "" := by
  intro he
  subst he
  exact absurd h (by decide)

/-- Claim C2 (amended): in variant 1 a record with a HEAD sha, a URL ending
in /commit/HEAD, a nonempty URL not ending in the sha, or an empty branch
makes the run end in an error with the state untouched; in variant 2 the
sha and URL conditions make saveCommitData throw, but the empty-branch
condition is not checked there. -/
theorem invalid_entry_aborts (pd : String → Int) (shaRaw : String) (e : Entry)
    (st : TrackState)
    (hbad : e.sha = "HEAD" ∨ jsEndsWith e.commit.url "/commit/HEAD" = true
        ∨ (e.commit.url ≠ "" ∧ jsEndsWith e.commit.url e.sha = false)
        ∨ e.branch = "") :
    isErr (runTrackerV1 pd shaRaw (some e) st).2 = true
      ∧ (runTrackerV1 pd shaRaw (some e) st).1.log = st.log
      ∧ (∀ q, (runTrackerV1 pd shaRaw (some e) st).1.fs q = st.fs q)
      ∧ (e.sha = "HEAD" ∨ jsEndsWith e.commit.url "/commit/HEAD" = true
          ∨ (e.commit.url ≠ "" ∧ jsEndsWith e.commit.url e.sha = false) →
          isErr (saveCommitDataV2 pd st e) = true) := by
  have hne : validateEntry e ≠ Except.ok () := by
    intro hok
    rw [validateEntry_ok_iff] at hok
    obtain ⟨hs, hu1, hu2, hb⟩ := hok
    rcases hbad with h | h | h | h
    · exact hs h
    · exact hu1 ⟨endsWith_commitHEAD_ne_empty e.commit.url h, h⟩
    · exact hu2 h
    · exact hb h
  have H : (runTrackerV1 pd shaRaw (some e) st).1 = st
      ∧ isErr (runTrackerV1 pd shaRaw (some e) st).2 = true := by
    unfold runTrackerV1
    by_cases hg : shaGate shaRaw = false
    · rw [if_pos hg]
      exact ⟨rfl, rfl⟩
    · rw [if_neg hg]
      cases hv : validateEntry e with
      | error v =>
        refine ⟨?_, ?_⟩ <;> simp [hv, isErr]
      | ok u =>
        cases u
        exact absurd hv hne
  refine ⟨H.2, by rw [H.1], fun q => by rw [H.1], fun hbad2 => ?_⟩
  unfold saveCommitDataV2
  split_ifs with h1 h2 h3
  · rfl
  · rfl
  · rfl
  · rcases hbad2 with h | h | h
    · exact absurd h h1
    · exact absurd ⟨endsWith_commitHEAD_ne_empty _ h, h⟩ h2
    · exact absurd h h3

/-- A record assembled with the forbidden literal HEAD as its sha. -/
def entryHeadSha : Entry :=
  mkEntry "HEAD" "Dev" "dev" "2024-01-05T10:00:00+00:00" "m" "" 0 0 outcome0

/-- Witness for claim C2: the forbidden-sha record aborts both validating
variants with nothing written. -/
theorem invalid_entry_aborts_witness :
    isErr (runTrackerV1 pd0 "abc1234" (some entryHeadSha) st0).2 = true
      ∧ (runTrackerV1 pd0 "abc1234" (some entryHeadSha) st0).1.log = st0.log
      ∧ (∀ q, (runTrackerV1 pd0 "abc1234" (some entryHeadSha) st0).1.fs q
          = st0.fs q)
      ∧ (entryHeadSha.sha = "HEAD"
          ∨ jsEndsWith entryHeadSha.commit.url "/commit/HEAD" = true
          ∨ (entryHeadSha.commit.url ≠ ""
              ∧ jsEndsWith entryHeadSha.commit.url entryHeadSha.sha = false) →
          isErr (saveCommitDataV2 pd0 st0 entryHeadSha) = true) :=
  invalid_entry_aborts pd0 "abc1234" entryHeadSha st0 (Or.inl rfl)

/-- A record whose branch is empty (the branch lookup of getCommitInfo
leaves the empty string when rev-parse abbrev-ref throws), with an
otherwise valid sha and an empty URL. -/
def entryNoBranch : Entry :=
  mkEntry "abc1234" "Dev" "" "2024-01-02T09:00:00+00:00" "m" "" 1 0 outcome0

/-- Counterexample to claim C2 as stated: commit-tracker.js persists a
record with an empty branch and exits without error, because its
saveCommitData never checks the branch. -/
theorem empty_branch_persisted_counterexample :
    entryNoBranch.branch = ""
      ∧ (runTrackerV2 pd0 "abc1234" (some entryNoBranch) st0).2 = Except.ok ()
      ∧ (runTrackerV2 pd0 "abc1234" (some entryNoBranch) st0).1.fs DATA_FILE
          = FileState.parses (JsValue.arr [entryNoBranch]) :=
  ⟨rfl, rfl, rfl⟩

theorem loadHistory_createIfAbsent (st : TrackState) (p : String) :
    loadHistory ((createIfAbsent st p).fs p) = loadHistory (st.fs p) := by
  unfold createIfAbsent
  by_cases h : st.fs p = FileState.absent
  · rw [if_pos h, h]
    unfold writeArr
    simp [loadHistory]
  · rw [if_neg h]

/-- The create-if-missing step is a no-op on a path that already exists. -/
theorem createIfAbsent_of_ne_absent (st : TrackState) (p : String)
    (h : st.fs p ≠ FileState.absent) : createIfAbsent st p = st := by
  unfold createIfAbsent
  rw [if_neg h]

/-- After an append, the target path parses to the sorted old content plus
the new record. -/
theorem appendEntryFS_fs_self (pd : String → Int) (st : TrackState) (p : String)
    (e : Entry) :
    (appendEntryFS pd st p e).fs p
      = FileState.parses (JsValue.arr
          (saveHistory pd (loadHistory (st.fs p) ++ [e]))) := by
  unfold appendEntryFS writeArr
  simp

/-- Claim C3 (amended): in the variant with sanitizeBranchName, every
validated record is appended to the per-branch file named with the
sanitized branch (created as an empty array first when absent), and the
branch feature/x-1 sanitizes to feature_x-1.  For a main-branch record the
sanitized per-branch path coincides with commit-history-main.json, so the
conditional main-file append hits the same file and the record is appended
there twice.  commit-tracker.js instead maintains no per-branch file at
all, and the third variant builds the per-branch path from the raw branch
name. -/
theorem branch_file_sanitized (pd : String → Int) (shaRaw : String) (e : Entry)
    (st : TrackState) (hok : validateEntry e = Except.ok ())
    (hg : shaGate shaRaw = true) :
    (runTrackerV1 pd shaRaw (some e) st).2 = Except.ok ()
      ∧ branchPathV1 e
          = "script/commit-history-" ++ sanitizeBranchName e.branch ++ ".json"
      ∧ sanitizeBranchName "feature/x-1" = "feature_x-1"
      ∧ (e.branch ≠ "main" →
          (runTrackerV1 pd shaRaw (some e) st).1.fs (branchPathV1 e)
            = FileState.parses (JsValue.arr
                (saveHistory pd (loadHistory (st.fs (branchPathV1 e)) ++ [e]))))
      ∧ (e.branch ≠ "main" → st.fs (branchPathV1 e) = FileState.absent →
          (runTrackerV1 pd shaRaw (some e) st).1.log
            = st.log ++ [⟨branchPathV1 e, []⟩,
                ⟨branchPathV1 e, saveHistory pd ([] ++ [e])⟩])
      ∧ (e.branch = "main" →
          branchPathV1 e = MAIN_FILE
            ∧ (runTrackerV1 pd shaRaw (some e) st).1.fs (branchPathV1 e)
                = FileState.parses (JsValue.arr (saveHistory pd
                    (saveHistory pd (loadHistory (st.fs (branchPathV1 e)) ++ [e])
                      ++ [e])))) := by
  by_cases hm : e.branch = "main"
  · have hpm : branchPathV1 e = MAIN_FILE := by
      unfold branchPathV1 MAIN_FILE
      rw [hm]
      decide
    have hrun : runTrackerV1 pd shaRaw (some e) st
        = (appendEntryFS pd
            (createIfAbsent
              (appendEntryFS pd (createIfAbsent st (branchPathV1 e))
                (branchPathV1 e) e)
              MAIN_FILE)
            MAIN_FILE e,
          Except.ok ()) := by
      unfold runTrackerV1
      simp [hg, hok, hm]
    refine ⟨by rw [hrun], rfl, by decide, fun hne => absurd hm hne,
      fun hne _ => absurd hm hne, fun _ => ⟨hpm, ?_⟩⟩
    rw [hrun, hpm]
    have hst2 : (appendEntryFS pd (createIfAbsent st MAIN_FILE) MAIN_FILE e).fs
        MAIN_FILE
        = FileState.parses (JsValue.arr
            (saveHistory pd (loadHistory (st.fs MAIN_FILE) ++ [e]))) := by
      rw [appendEntryFS_fs_self, loadHistory_createIfAbsent]
    have hno : createIfAbsent
        (appendEntryFS pd (createIfAbsent st MAIN_FILE) MAIN_FILE e) MAIN_FILE
        = appendEntryFS pd (createIfAbsent st MAIN_FILE) MAIN_FILE e :=
      createIfAbsent_of_ne_absent _ MAIN_FILE (by simp [hst2])
    rw [appendEntryFS_fs_self, hno, hst2]
    simp [loadHistory]
  · have hrun : runTrackerV1 pd shaRaw (some e) st
        = (appendEntryFS pd (createIfAbsent st (branchPathV1 e)) (branchPathV1 e) e,
            Except.ok ()) := by
      unfold runTrackerV1
      simp [hg, hok, hm]
    refine ⟨by rw [hrun], rfl, by decide, fun _ => ?_, fun _ habs => ?_,
      fun hmm => absurd hmm hm⟩
    · rw [hrun, appendEntryFS_fs_self, loadHistory_createIfAbsent]
    · rw [hrun]
      unfold appendEntryFS writeArr createIfAbsent
      rw [if_pos habs]
      unfold writeArr
      simp [loadHistory]

/-- A record on the branch dev with an empty remote URL, passing
validateEntry. -/
def entryDev : Entry :=
  mkEntry "abc1234" "Dev" "dev" "2024-01-06T11:00:00+00:00" "m" "" 2 1 outcome0

/-- A record on the branch main with an empty remote URL, passing
validateEntry. -/
def entryMain : Entry :=
  mkEntry "abc1234" "Dev" "main" "2024-01-07T12:00:00+00:00" "m" "" 1 0 outcome0

/-- Witness for claim C3: the sanitized-branch append at two concrete
validated records over the empty file system, one on the branch dev (single
append) and one on the branch main (per-branch path equal to the main file,
record appended twice). -/
theorem branch_file_sanitized_witness :
    ((runTrackerV1 pd0 "abc1234" (some entryDev) st0).2 = Except.ok ()
        ∧ branchPathV1 entryDev
            = "script/commit-history-" ++ sanitizeBranchName entryDev.branch
              ++ ".json"
        ∧ sanitizeBranchName "feature/x-1" = "feature_x-1"
        ∧ (entryDev.branch ≠ "main" →
            (runTrackerV1 pd0 "abc1234" (some entryDev) st0).1.fs
              (branchPathV1 entryDev)
              = FileState.parses (JsValue.arr
                  (saveHistory pd0 (loadHistory (st0.fs (branchPathV1 entryDev))
                    ++ [entryDev]))))
        ∧ (entryDev.branch ≠ "main" →
            st0.fs (branchPathV1 entryDev) = FileState.absent →
            (runTrackerV1 pd0 "abc1234" (some entryDev) st0).1.log
              = st0.log ++ [⟨branchPathV1 entryDev, []⟩,
                  ⟨branchPathV1 entryDev, saveHistory pd0 ([] ++ [entryDev])⟩])
        ∧ (entryDev.branch = "main" →
            branchPathV1 entryDev = MAIN_FILE
              ∧ (runTrackerV1 pd0 "abc1234" (some entryDev) st0).1.fs
                  (branchPathV1 entryDev)
                  = FileState.parses (JsValue.arr (saveHistory pd0
                      (saveHistory pd0
                        (loadHistory (st0.fs (branchPathV1 entryDev))
                          ++ [entryDev]) ++ [entryDev])))))
      ∧ ((runTrackerV1 pd0 "abc1234" (some entryMain) st0).2 = Except.ok ()
        ∧ branchPathV1 entryMain
            = "script/commit-history-" ++ sanitizeBranchName entryMain.branch
              ++ ".json"
        ∧ sanitizeBranchName "feature/x-1" = "feature_x-1"
        ∧ (entryMain.branch ≠ "main" →
            (runTrackerV1 pd0 "abc1234" (some entryMain) st0).1.fs
              (branchPathV1 entryMain)
              = FileState.parses (JsValue.arr
                  (saveHistory pd0 (loadHistory (st0.fs (branchPathV1 entryMain))
                    ++ [entryMain]))))
        ∧ (entryMain.branch ≠ "main" →
            st0.fs (branchPathV1 entryMain) = FileState.absent →
            (runTrackerV1 pd0 "abc1234" (some entryMain) st0).1.log
              = st0.log ++ [⟨branchPathV1 entryMain, []⟩,
                  ⟨branchPathV1 entryMain, saveHistory pd0 ([] ++ [entryMain])⟩])
        ∧ (entryMain.branch = "main" →
            branchPathV1 entryMain = MAIN_FILE
              ∧ (runTrackerV1 pd0 "abc1234" (some entryMain) st0).1.fs
                  (branchPathV1 entryMain)
                  = FileState.parses (JsValue.arr (saveHistory pd0
                      (saveHistory pd0
                        (loadHistory (st0.fs (branchPathV1 entryMain))
                          ++ [entryMain]) ++ [entryMain]))))) :=
  ⟨branch_file_sanitized pd0 "abc1234" entryDev st0 rfl rfl,
    branch_file_sanitized pd0 "abc1234" entryMain st0 rfl rfl⟩

/-- A record whose branch is feature/x-1, passing every validation. -/
def entryFeature : Entry :=
  mkEntry "abc1234" "Dev" "feature/x-1" "2024-01-03T08:00:00+00:00" "m" "" 2 0
    outcome0

/-- Counterexample to claim C3 as stated: commit-tracker.js persists the
validated feature/x-1 record while writing no per-branch file at all, and
the third variant writes the per-branch file under the raw, unsanitized
name rather than the claimed sanitized one. -/
theorem branch_file_missing_counterexample :
    (runTrackerV2 pd0 "abc1234" (some entryFeature) st0).2 = Except.ok ()
      ∧ (runTrackerV2 pd0 "abc1234" (some entryFeature) st0).1.fs
          "script/commit-history-feature_x-1.json" = FileState.absent
      ∧ (saveCommitDataV3 pd0 st0 entryFeature).fs
          "script/commit-history-feature/x-1.json"
          = FileState.parses (JsValue.arr [entryFeature])
      ∧ (saveCommitDataV3 pd0 st0 entryFeature).fs
          "script/commit-history-feature_x-1.json" = FileState.absent :=
  ⟨rfl, rfl, rfl, rfl⟩

/-- Claim C4 (amended): the sha gate accepts exactly the hex runs of 7 to
40 characters in either letter case, so a gated sha is never the literal
HEAD, and a resolved string failing that case-insensitive pattern aborts
the run before any record is built. -/
theorem sha_gate_characterization :
    (∀ s, shaGate s = true →
        7 ≤ s.data.length ∧ s.data.length ≤ 40
          ∧ s.data.all isHexCI = true ∧ s ≠ "HEAD")
      ∧ (∀ (pd : String → Int) (info : Option Entry) (st : TrackState)
          (s : String), shaGate s = false →
          runTrackerV1 pd s info st = (st, Except.error TrackerError.invalidSha)) := by
  constructor
  · intro s hs
    exact ⟨(shaGate_spec s hs).1, (shaGate_spec s hs).2.1, (shaGate_spec s hs).2.2,
      shaGate_ne_HEAD s hs⟩
  · intro pd info st s hs
    unfold runTrackerV1
    simp [hs]

/-- Witness for claim C4: the gate facts at a concrete lowercase sha and
the abort at a concrete non-hex string. -/
theorem sha_gate_witness :
    (7 ≤ "abc1234".data.length ∧ "abc1234".data.length ≤ 40
        ∧ "abc1234".data.all isHexCI = true ∧ "abc1234" ≠ "HEAD")
      ∧ runTrackerV1 pd0 "xy" none st0 = (st0, Except.error TrackerError.invalidSha) :=
  ⟨sha_gate_characterization.1 "abc1234" (by decide),
    sha_gate_characterization.2 pd0 none st0 "xy" (by decide)⟩

/-- A record whose sha is uppercase hex: the case-insensitive gate lets it
through. -/
def entryUpperSha : Entry :=
  mkEntry "ABCDEF0" "Dev" "dev" "2024-01-04T07:00:00+00:00" "m" "" 1 1 outcome0

/-- Counterexample to claim C4 as stated: the string ABCDEF0 passes the
gate of the source although it does not match the lowercase-only pattern of
the claim, and the resulting record is persisted with that sha. -/
theorem uppercase_sha_persisted_counterexample :
    shaGate "ABCDEF0" = true ∧ specShaPattern "ABCDEF0" = false
      ∧ (runTrackerV1 pd0 "ABCDEF0" (some entryUpperSha) st0).2 = Except.ok ()
      ∧ (runTrackerV1 pd0 "ABCDEF0" (some entryUpperSha) st0).1.fs
          "script/commit-history-dev.json"
          = FileState.parses (JsValue.arr [entryUpperSha])
      ∧ entryUpperSha.sha = "ABCDEF0" :=
  ⟨rfl, rfl, rfl, rfl, rfl⟩

/-- A git show stat output of a root commit adding one 10-line file: there
is no deletion summary in it. -/
def rootShowOut : String :=
  "commit 0a1b2c3\nAuthor: Dev\nDate: Mon Jan 1 10:00:00 2024 +0000\n\n    initial\n\n file.txt | 10 ++++++++++\n 1 file changed, 10 insertions(+)\n"

/-- Claim C6 (amended): the commit-tracker.js fallback always records zero
deletions; the fallback of the other two variants parses deletions from the
git show output, which yields zero for a true root commit because that
output carries no deletion summary; on the 10-line root-commit scenario
every variant records additions 10, deletions 0 and total 10. -/
theorem root_fallback_stats :
    (∀ out, (showFallbackStatsB out).2 = 0)
      ∧ parsedStats rootShowOut = (10, 0)
      ∧ showFallbackStatsB rootShowOut = (10, 0)
      ∧ (mkEntry "abc1234" "Dev" "dev" "2024-01-01T10:00:00+00:00" "initial" ""
          (parsedStats rootShowOut).1 (parsedStats rootShowOut).2
          outcome0).stats.total = 10 :=
  ⟨fun _ => rfl, rfl, rfl, rfl⟩

/-- A stat output carrying a deletion summary, as git show prints for a
non-root commit reaching the fallback. -/
def statOutWithDeletions : String := "1 file changed, 3 insertions(+), 2 deletions(-)"

/-- Counterexample to claim C6 as stated: the fallback of the part_000
variants parses deletions from the show output, so deletions is not always
0 in the fallback branch. -/
theorem fallback_deletions_counterexample :
    parsedStats statOutWithDeletions = (3, 2)
      ∧ (parsedStats statOutWithDeletions).2 ≠ 0 :=
  ⟨rfl, by decide⟩

/-- A file system on which every path holds a file whose JSON fails to
parse. -/
def stCorrupt : TrackState := ⟨fun _ => FileState.corrupt, []⟩

/-- Witness for claim C8: appending to a concrete corrupt history file
loads the empty history and writes exactly the one new record. -/
theorem load_failure_witness :
    loadHistory FileState.corrupt = []
      ∧ (appendEntryFS pd0 stCorrupt "script/commit-history.json" entryDev).fs
          "script/commit-history.json"
          = FileState.parses (JsValue.arr [entryDev]) :=
  load_failure_yields_empty FileState.corrupt (Or.inl rfl) pd0 stCorrupt
    "script/commit-history.json" entryDev rfl
